import Mathlib

/-!
Verification of the annotation-resolution engine of `clap-derive`
(`src/derives/attrs.rs`): casing conversion, type-shape classification,
doc-comment reflow, directive interpretation and validation.

The engine is embedded shallowly: `syn` token streams and expressions are
modelled by the tagged value type `Expr`, type descriptors by `SynType`,
and the panicking Rust code paths by `Except String`.
-/

namespace ClapDerive

/-! ## String helpers

Rust's `str` operations used by the source, re-implemented structurally
over `List Char` so that every definition evaluates by `decide`/`simp`. -/

/-- Strip leading and trailing whitespace characters, the model of Rust's
`str::trim` (restricted to ASCII whitespace). -/
def trim_chars (cs : List Char) : List Char :=
  ((cs.dropWhile Char.isWhitespace).reverse.dropWhile Char.isWhitespace).reverse

/-- Model of Rust's `str::trim` on strings. -/
def str_trim (s : String) : String :=
  String.mk (trim_chars s.data)

/-- Model of Rust's `str::trim_end_matches('.')`: remove every trailing
period character (repeatedly, i.e. all of them, not just one). -/
def trim_end_dots (s : String) : String :=
  String.mk (s.data.reverse.dropWhile (fun c => decide (c = '.'))).reverse

/-- Split a character list at every newline, the model of Rust's
`str::split('\n')` (an empty input yields one empty piece, matching Rust). -/
def split_lines_chars : List Char → List (List Char)
  | [] => [[]]
  | c :: rest =>
    if c = '\n' then [] :: split_lines_chars rest
    else
      match split_lines_chars rest with
      | [] => [[c]]
      | h :: t => (c :: h) :: t

/-- Model of Rust's `str::split('\n')` on strings. -/
def split_newline (s : String) : List String :=
  (split_lines_chars s.data).map String.mk

/-- Model of Rust's slice `join(sep)` / iterator `intercalate`. -/
def joinSep (sep : String) : List String → String
  | [] => ""
  | [x] => x
  | x :: y :: xs => x ++ sep ++ joinSep sep (y :: xs)

/-! ## Casing converter (`CasingStyle`, src/derives/attrs.rs lines 68-140)

The source delegates the individual conversions to the external `heck`
crate; the word-splitting and per-style joins below are modelled from the
spec (section 4.1): word boundaries at separator characters and at
lower-to-upper transitions. -/

/-- Defines the casing for the attributes long representation
(src/derives/attrs.rs lines 69-83). -/
inductive CasingStyle where
  /-- Indicate word boundaries with uppercase letter, excluding the first word. -/
  | Camel
  /-- Keep all letters lowercase and indicate word boundaries with hyphens. -/
  | Kebab
  /-- Indicate word boundaries with uppercase letter, including the first word. -/
  | Pascal
  /-- Keep all letters uppercase and indicate word boundaries with underscores. -/
  | ScreamingSnake
  /-- Keep all letters lowercase and indicate word boundaries with underscores. -/
  | Snake
  /-- Use the original attribute name defined in the code. -/
  | Verbatim
deriving DecidableEq, Repr

/-- Modelled from the spec: the word splitting performed by the external
`heck` crate, which is not part of this repository.  A word ends at a
separator character (hyphen, underscore, space) and a new word starts at a
lowercase-to-uppercase transition.  The first argument is the current word
accumulated in reverse. -/
def word_split (cur : List Char) : List Char → List (List Char)
  | [] => if cur = [] then [] else [cur.reverse]
  | c :: rest =>
    if c = '-' ∨ c = '_' ∨ c = ' ' then
      if cur = [] then word_split [] rest else cur.reverse :: word_split [] rest
    else if c.isUpper && (match cur with | p :: _ => p.isLower | [] => false) then
      cur.reverse :: word_split [c] rest
    else
      word_split (c :: cur) rest

/-- Capitalize one word: first character uppercased, rest lowercased
(modelled from the spec's word-boundary capitalization). -/
def capitalize_word : List Char → List Char
  | [] => []
  | c :: cs => c.toUpper :: cs.map Char.toLower

/-- Lowercase a word. -/
def lower_word (w : List Char) : List Char := w.map Char.toLower

/-- Uppercase a word. -/
def upper_word (w : List Char) : List Char := w.map Char.toUpper

/-- Modelled from the spec: `CasingStyle::translate`
(src/derives/attrs.rs lines 110-119), with the external `heck`
conversions replaced by the section 4.1 table over `word_split`. -/
def CasingStyle.translate (style : CasingStyle) (input : String) : String :=
  let ws := word_split [] input.data
  match style with
  | .Pascal => String.mk (ws.map capitalize_word).flatten
  | .Kebab => joinSep "-" (ws.map fun w => String.mk (lower_word w))
  | .Camel =>
    match ws with
    | [] => ""
    | w :: rest => String.mk (lower_word w ++ (rest.map capitalize_word).flatten)
  | .ScreamingSnake => joinSep "_" (ws.map fun w => String.mk (upper_word w))
  | .Snake => joinSep "_" (ws.map fun w => String.mk (lower_word w))
  | .Verbatim => input

/-- `CasingStyle::from_str` (src/derives/attrs.rs lines 122-140): the name
is camel-cased then lowercased (which erases separators), then matched
case-insensitively with an optional `case` suffix. -/
def CasingStyle.from_str (nm : String) : Except String CasingStyle :=
  let nm := String.mk (lower_word ((word_split [] nm.data).map capitalize_word).flatten)
  if nm = "camel" ∨ nm = "camelcase" then Except.ok CasingStyle.Camel
  else if nm = "kebab" ∨ nm = "kebabcase" then Except.ok CasingStyle.Kebab
  else if nm = "pascal" ∨ nm = "pascalcase" then Except.ok CasingStyle.Pascal
  else if nm = "screamingsnake" ∨ nm = "screamingsnakecase" then
    Except.ok CasingStyle.ScreamingSnake
  else if nm = "snake" ∨ nm = "snakecase" then Except.ok CasingStyle.Snake
  else if nm = "verbatim" ∨ nm = "verbatimcase" then Except.ok CasingStyle.Verbatim
  else Except.error ("unsupported casing: " ++ nm)

/-! ## Core data model (src/derives/attrs.rs lines 25-66) -/

/-- `Ty` (src/derives/attrs.rs lines 32-40): the six type shapes. -/
inductive Ty where
  | Bool
  | Vec
  | Option
  | OptionOption
  | OptionVec
  | Other
deriving DecidableEq, Repr

/-- `Kind` (src/derives/attrs.rs lines 25-30): how a field is consumed. -/
inductive Kind where
  | Arg (t : Ty)
  | Subcommand (t : Ty)
  | FlattenStruct
deriving DecidableEq, Repr

/-- `Parser` (src/derives/attrs.rs lines 59-66): the parsing strategy. -/
inductive Parser where
  | FromStr
  | TryFromStr
  | FromOsStr
  | TryFromOsStr
  | FromOccurrences
deriving DecidableEq, Repr

/-- `Parser::from_str` (src/derives/attrs.rs lines 95-107). -/
def Parser.from_str (s : String) : Except String Parser :=
  if s = "from_str" then Except.ok Parser.FromStr
  else if s = "try_from_str" then Except.ok Parser.TryFromStr
  else if s = "from_os_str" then Except.ok Parser.FromOsStr
  else if s = "try_from_os_str" then Except.ok Parser.TryFromOsStr
  else if s = "from_occurrences" then Except.ok Parser.FromOccurrences
  else Except.error ("unsupported parser " ++ s)

/-- The opaque `proc_macro2::TokenStream` values the engine carries around
unevaluated, modelled as a tagged value type: the distinguished conversion
expressions hard-coded by the source, string literals, function-path
expressions (the only form `parse` accepts as an explicit function), and
arbitrary other token streams. -/
inductive Expr where
  /-- The token stream of a quoted string literal. -/
  | strLit (s : String)
  /-- The tokens of the conversion fn used by default with try_from_str. -/
  | fromStrFromStr
  /-- The tokens of the conversion used by default with from_str and from_os_str. -/
  | convertFrom
  /-- The numeric-cast closure used by default with from_occurrences. -/
  | occurrencesCast
  /-- A plain function-path expression (a `syn::Expr::Path`). -/
  | exprPath (p : String)
  /-- Any other expression / token stream, carried through uninterpreted. -/
  | otherTokens (t : String)
deriving DecidableEq, Repr

/-- `Method` (src/derives/attrs.rs lines 53-57): one accumulated builder
directive, a name plus an uninterpreted argument token stream. -/
structure Method where
  name : String
  args : Expr
deriving DecidableEq, Repr

/-- `Attrs` (src/derives/attrs.rs lines 42-51): the attribute model
accumulated per struct / per field.  The Rust field `has_custom_parser`
is spelled `hasCustomParser` here. -/
structure Attrs where
  name : String
  cased_name : String
  casing : CasingStyle
  methods : List Method
  parser : Parser × Expr
  hasCustomParser : Bool
  kind : Kind
deriving DecidableEq, Repr

/-! ## Type shape classifier (src/derives/attrs.rs lines 362-381) -/

/-- A structural descriptor of a declared field type: either a simple
named path (the last path segment's identifier together with the generic
type arguments of that segment) or any other, non-path type form
(reference, tuple, function type, ...). -/
inductive SynType where
  | path (name : String) (args : List SynType)
  | notPath

/-- Modelled from the spec: `derives::sub_type` lives outside
src/derives/attrs.rs; per the spec it returns the single wrapped type
argument of a generic wrapper, i.e. the first generic type argument of
the path's last segment. -/
def sub_type : SynType → Option SynType
  | SynType.path _ (a :: _) => some a
  | _ => none

/-- `Attrs::ty_from_field` (src/derives/attrs.rs lines 362-381): classify
a type descriptor into a `Ty` shape.  On the generic optional constructor
the wrapped type (`sub_type`, inlined here as the head of the argument
list) is classified by a full recursive call. -/
def ty_from_field : SynType → Ty
  | SynType.notPath => Ty.Other
  | SynType.path nm args =>
    if nm = "bool" then Ty.Bool
    else if nm = "Option" then
      match args with
      | [] => Ty.Option
      | sub :: _ =>
        match ty_from_field sub with
        | Ty.Option => Ty.OptionOption
        | Ty.Vec => Ty.OptionVec
        | _ => Ty.Option
    else if nm = "Vec" then Ty.Vec
    else Ty.Other

/-- Truncate a type descriptor below a given depth: at depth 0 every
descriptor is stubbed out; below that, path names are kept and each
argument is truncated one level deeper.  Two descriptors agree on their
first `d` levels exactly when their depth-`d` truncations are equal. -/
def truncate : Nat → SynType → SynType
  | 0, _ => SynType.notPath
  | _ + 1, SynType.notPath => SynType.notPath
  | d + 1, SynType.path nm args => SynType.path nm (args.map (truncate d))

/-! ## Attribute model operations (src/derives/attrs.rs lines 142-248) -/

/-- `Attrs::new` (src/derives/attrs.rs lines 143-155): a fresh model. -/
def Attrs.new (name : String) (casing : CasingStyle) : Attrs :=
  { name := name
    cased_name := casing.translate name
    casing := casing
    methods := []
    parser := (Parser.TryFromStr, Expr.fromStrFromStr)
    hasCustomParser := false
    kind := Kind.Arg Ty.Other }

/-- `Attrs::push_str_method` (src/derives/attrs.rs lines 156-171): apply a
string-literal-valued directive.  An empty-literal `about`/`version`/
`author` removes every accumulated method of that name (and adds
nothing); `name` renames the model and re-derives the cased name; any
other pair is appended to the method list. -/
def Attrs.push_str_method (a : Attrs) (name arg : String) : Attrs :=
  if (name = "about" ∨ name = "version" ∨ name = "author") ∧ arg = "" then
    { a with methods := a.methods.filter (fun m => decide (m.name ≠ name)) }
  else if name = "name" then
    { a with name := arg, cased_name := a.casing.translate arg }
  else
    { a with methods := a.methods ++ [⟨name, Expr.strLit arg⟩] }

/-- `Attrs::set_kind` (src/derives/attrs.rs lines 464-470): promote the
kind; fatal if the kind is already not `Arg`. -/
def Attrs.set_kind (a : Attrs) (kind : Kind) : Except String Attrs :=
  match a.kind with
  | Kind.Arg _ => Except.ok { a with kind := kind }
  | _ => Except.error "subcommands cannot be flattened"

/-- `Attrs::has_method` (src/derives/attrs.rs lines 471-473). -/
def Attrs.has_method (a : Attrs) (method : String) : Bool :=
  a.methods.any (fun m => decide (m.name = method))

/-- `derives::parse::ClapAttr`: the pre-tokenized directive language
consumed by `Attrs::push_attrs` (the tokenizer itself is external, spec
section 6; the constructors are exactly those matched at
src/derives/attrs.rs lines 177-245). -/
inductive ClapAttr where
  | Short
  | Long
  | Subcommand
  | Flatten
  | NameLitStr (name : String) (lit : String)
  | NameExpr (name : String) (expr : Expr)
  | MethodCall (name : String) (args : Expr)
  | RenameAll (casing_lit : String)
  | Parse (kind : String) (parse_func : Option Expr)
deriving DecidableEq, Repr

/-- The body of the `Attrs::push_attrs` loop (src/derives/attrs.rs lines
176-247): apply one directive to the model.  The source's `panic!` calls
become `Except.error`. -/
def Attrs.push_attr (a : Attrs) : ClapAttr → Except String Attrs
  | ClapAttr.Short => Except.ok (a.push_str_method "short" a.cased_name)
  | ClapAttr.Long => Except.ok (a.push_str_method "long" a.cased_name)
  | ClapAttr.Subcommand => a.set_kind (Kind.Subcommand Ty.Other)
  | ClapAttr.Flatten => a.set_kind Kind.FlattenStruct
  | ClapAttr.NameLitStr nm lit => Except.ok (a.push_str_method nm lit)
  | ClapAttr.NameExpr nm e =>
    Except.ok { a with methods := a.methods ++ [⟨nm, e⟩] }
  | ClapAttr.MethodCall nm args =>
    Except.ok { a with methods := a.methods ++ [⟨nm, args⟩] }
  | ClapAttr.RenameAll lit =>
    match CasingStyle.from_str lit with
    | Except.ok c =>
      Except.ok { a with casing := c, cased_name := c.translate a.name }
    | Except.error e => Except.error e
  | ClapAttr.Parse kind pf =>
    match pf with
    | none =>
      match Parser.from_str kind with
      | Except.error e => Except.error e
      | Except.ok p =>
        match p with
        | Parser.FromStr =>
          Except.ok { a with hasCustomParser := true, parser := (p, Expr.convertFrom) }
        | Parser.FromOsStr =>
          Except.ok { a with hasCustomParser := true, parser := (p, Expr.convertFrom) }
        | Parser.TryFromStr =>
          Except.ok { a with hasCustomParser := true, parser := (p, Expr.fromStrFromStr) }
        | Parser.TryFromOsStr =>
          Except.error "cannot omit parser function name with try_from_os_str"
        | Parser.FromOccurrences =>
          Except.ok { a with hasCustomParser := true, parser := (p, Expr.occurrencesCast) }
    | some f =>
      match Parser.from_str kind with
      | Except.error e => Except.error e
      | Except.ok p =>
        match f with
        | Expr.exprPath s =>
          Except.ok { a with hasCustomParser := true, parser := (p, Expr.exprPath s) }
        | _ => Except.error "parse argument must be a function path"

/-- `Attrs::push_attrs` (src/derives/attrs.rs lines 173-248): fold the
directive sequence over the model, left to right, stopping at the first
fatal error. -/
def Attrs.push_attrs (a : Attrs) : List ClapAttr → Except String Attrs
  | [] => Except.ok a
  | d :: rest =>
    match a.push_attr d with
    | Except.ok a' => a'.push_attrs rest
    | Except.error e => Except.error e

/-! ## Documentation reflow (src/derives/attrs.rs lines 250-332)

The extraction of raw doc lines from `syn` attributes (lines 251-287) is
the external annotation parser's side: each line arrives already trimmed,
with blank lines replaced by the paragraph-break sentinel `"\n\n"`.  The
function below is the reflow logic from line 288 on, taking that
collected list directly. -/

/-- The merged multi-line help string (src/derives/attrs.rs lines
291-297): all collected lines joined by spaces, re-split at the newlines
embedded by the paragraph-break sentinels, each piece trimmed, and
re-joined by newlines. -/
def merged_doc (doc_comments : List String) : String :=
  joinSep "\n" ((split_newline (joinSep " " doc_comments)).map str_trim)

/-- The split decision (src/derives/attrs.rs lines 299-303): more than 2
collected lines and the second collected line is exactly the
paragraph-break sentinel. -/
def doc_split_condition (doc_comments : List String) : Bool :=
  match doc_comments.drop 1 with
  | content :: _ => decide (doc_comments.length > 2) && decide (content = "\n\n")
  | [] => false

/-- The short help string (src/derives/attrs.rs lines 316-320): the first
collected line, trimmed, with every trailing period removed. -/
def short_doc (doc_comments : List String) : String :=
  match doc_comments.head? with
  | none => ""
  | some s => trim_end_dots (str_trim s)

/-- `Attrs::push_doc_comment` (src/derives/attrs.rs lines 288-331) on the
collected doc-comment line list: empty list emits nothing; if there are
more than 2 lines and the second is exactly the sentinel, a `long_<name>`
method with the merged string and a `<name>` method with the short string
are appended; otherwise a single `<name>` method with the merged string
is appended. -/
def Attrs.push_doc_comment (a : Attrs) (doc_comments : List String) (name : String) : Attrs :=
  if doc_comments = [] then a
  else if doc_split_condition doc_comments = true then
    let long_name := "long_" ++ name
    { a with methods := a.methods ++
        [⟨long_name, Expr.strLit (merged_doc doc_comments)⟩,
         ⟨name, Expr.strLit (short_doc doc_comments)⟩] }
  else
    { a with methods := a.methods ++ [⟨name, Expr.strLit (merged_doc doc_comments)⟩] }

/-! ## Field resolution and validation (src/derives/attrs.rs lines 382-463) -/

/-- A declarative field handed to `Attrs::from_field`: its identifier,
its collected doc-comment lines, its pre-tokenized directives and its
declared type descriptor. -/
structure Field where
  ident : String
  doc_comments : List String
  clap_attrs : List ClapAttr
  ty : SynType

/-- The shape-legality checks of the `Kind::Arg` branch of
`Attrs::from_field` (src/derives/attrs.rs lines 426-457), returning the
first fatal error if any. -/
def Attrs.arg_shape_error (res : Attrs) (ty : Ty) : Option String :=
  match ty with
  | Ty.Bool =>
    if res.has_method "default_value" then some "default_value is meaningless for bool"
    else if res.has_method "required" then some "required is meaningless for bool"
    else none
  | Ty.Option =>
    if res.has_method "default_value" then some "default_value is meaningless for Option"
    else if res.has_method "required" then some "required is meaningless for Option"
    else none
  | Ty.OptionOption =>
    if !(res.has_method "long" || res.has_method "short") then
      some "Option<Option<T>> type is meaningless for positional argument"
    else none
  | Ty.OptionVec =>
    if !(res.has_method "long" || res.has_method "short") then
      some "Option<Vec<T>> type is meaningless for positional argument"
    else none
  | _ => none

/-- The validation stage of `Attrs::from_field` (the match on the
resolved kind at src/derives/attrs.rs lines 388-460), as a function of
the resolved kind `k` (always invoked with `k = res.kind`) and the
field's declared type descriptor. -/
def Attrs.validate_kind (res : Attrs) (k : Kind) (ty : SynType) : Except String Attrs :=
  match k with
  | Kind.FlattenStruct =>
    if res.hasCustomParser then
      Except.error "parse attribute is not allowed for flattened entry"
    else if !res.methods.isEmpty then
      Except.error "methods and doc comments are not allowed for flattened entry"
    else Except.ok res
  | Kind.Subcommand _ =>
    if res.hasCustomParser then
      Except.error "parse attribute is not allowed for subcommand"
    else if !(res.methods.all fun m => decide (m.name = "help")) then
      Except.error "methods in attributes are not allowed for subcommand"
    else
      match ty_from_field ty with
      | Ty.OptionOption => Except.error "Option<Option<T>> type is not allowed for subcommand"
      | Ty.OptionVec => Except.error "Option<Vec<T>> type is not allowed for subcommand"
      | t => Except.ok { res with kind := Kind.Subcommand t }
  | Kind.Arg _ =>
    let ty0 := ty_from_field ty
    let t :=
      if res.hasCustomParser then
        match ty0 with
        | Ty.Option => ty0
        | Ty.Vec => ty0
        | _ => Ty.Other
      else ty0
    match res.arg_shape_error t with
    | some e => Except.error e
    | none => Except.ok { res with kind := Kind.Arg t }

/-- `Attrs::from_field` (src/derives/attrs.rs lines 382-463): build the
model for one field (fresh model, doc comments under the `help` name,
then directives), then validate it against the field's inferred type
shape according to the resolved kind. -/
def Attrs.from_field (field : Field) (struct_casing : CasingStyle) : Except String Attrs :=
  let res0 := Attrs.new field.ident struct_casing
  let res1 := res0.push_doc_comment field.doc_comments "help"
  match res1.push_attrs field.clap_attrs with
  | Except.error e => Except.error e
  | Except.ok res => res.validate_kind res.kind field.ty

/-! ## Output assembler (src/derives/attrs.rs lines 474-484) -/

/-- The value form a rendered builder-call argument takes at runtime of
the emitted code. -/
inductive RenderedArg where
  /-- The evaluated first character of a string-literal argument. -/
  | firstChar (c : Char)
  /-- The symbolic first-character extraction applied to a non-literal argument. -/
  | firstCharOf (e : Expr)
  /-- An argument passed through unchanged. -/
  | plain (e : Expr)
deriving DecidableEq, Repr

/-- Semantic model of one iteration of `Attrs::methods`
(src/derives/attrs.rs lines 474-484): for every method the source quotes
the builder call `.name(args)`, except when the name is `short`, where it
quotes `.short(args.chars().nth(0).unwrap())`.  The renderer here
evaluates that quoted expression for string-literal arguments: only the
first character is kept and the unguarded `unwrap` panics (modelled as
`none`) when the literal is empty; non-literal `short` arguments stay
symbolic, and every other method's argument passes through unchanged. -/
def render_method (m : Method) : Option (String × RenderedArg) :=
  if m.name = "short" then
    match m.args with
    | Expr.strLit s =>
      match s.data with
      | [] => none
      | c :: _ => some (m.name, RenderedArg.firstChar c)
    | e => some (m.name, RenderedArg.firstCharOf e)
  else some (m.name, RenderedArg.plain m.args)

/-- Semantic model of the full `Attrs::methods` output: each accumulated
method rendered in order; a panic in any rendered call poisons the whole
token stream. -/
def render_methods : List Method → Option (List (String × RenderedArg))
  | [] => some []
  | m :: rest =>
    match render_method m, render_methods rest with
    | some r, some rs => some (r :: rs)
    | _, _ => none

/-! ## Theorems -/

/-- C1 counterexample: classification inspects more than one extra level
below the optional constructor and recurses deeper than two levels.  The
descriptors `Option<Option<String>>` and `Option<Option<Option<String>>>`
agree on their first two levels (equal depth-2 truncations) and the
second one's wrapped type has the optional constructor outermost, yet the
two classifications differ: the triply-nested optional classifies as
plain `Option`, not `OptionOption`. -/
theorem c1_classify_counterexample :
    truncate 2 (SynType.path "Option" [SynType.path "Option" [SynType.path "String" []]])
      = truncate 2 (SynType.path "Option"
          [SynType.path "Option" [SynType.path "Option" [SynType.path "String" []]]])
  ∧ ty_from_field (SynType.path "Option" [SynType.path "Option" [SynType.path "String" []]])
      = Ty.OptionOption
  ∧ ty_from_field (SynType.path "Option"
        [SynType.path "Option" [SynType.path "Option" [SynType.path "String" []]]])
      = Ty.Option
  ∧ Ty.OptionOption ≠ Ty.Option := ⟨rfl, rfl, rfl, by decide⟩

/-- C1 (amended): the classifier returns `Bool` when the outermost named
constructor is `bool`, `Vec` for the list constructor, and for the
`Option` constructor it classifies the single wrapped type by a full
recursive call (to arbitrary depth), returning `OptionOption` when the
wrapped type itself classifies as `Option`, `OptionVec` when it
classifies as `Vec`, and `Option` otherwise; any other constructor name
and any non-path descriptor classify as `Other`. -/
theorem c1_classify_amended (nm : String) (args : List SynType) :
    ty_from_field (SynType.path "bool" args) = Ty.Bool
  ∧ ty_from_field (SynType.path "Vec" args) = Ty.Vec
  ∧ ty_from_field (SynType.path "Option" args)
      = (match (sub_type (SynType.path "Option" args)).map ty_from_field with
         | some Ty.Option => Ty.OptionOption
         | some Ty.Vec => Ty.OptionVec
         | _ => Ty.Option)
  ∧ (nm ≠ "bool" → nm ≠ "Option" → nm ≠ "Vec" →
      ty_from_field (SynType.path nm args) = Ty.Other)
  ∧ ty_from_field SynType.notPath = Ty.Other := by
  refine ⟨?_, ?_, ?_, ?_, rfl⟩
  · cases args with
    | nil => rw [ty_from_field]; simp
    | cons a rest => rw [ty_from_field]; simp
  · cases args with
    | nil => rw [ty_from_field]; simp
    | cons a rest => rw [ty_from_field]; simp
  · cases args with
    | nil => rfl
    | cons a rest =>
      cases h : ty_from_field a
      all_goals simp only [sub_type, Option.map]
      all_goals rw [ty_from_field, h]
      all_goals simp
  · intro h1 h2 h3
    cases args with
    | nil => rw [ty_from_field]; simp [h1, h2, h3]
    | cons a rest => rw [ty_from_field]; simp [h1, h2, h3]

/-- C1 witness: the amended characterization evaluated at the concrete
constructor name `String`, which classifies as `Other`. -/
theorem c1_classify_witness :
    ty_from_field (SynType.path "String" []) = Ty.Other :=
  (c1_classify_amended "String" []).2.2.2.1 (by decide) (by decide) (by decide)

/-- C3 counterexample: a single collected doc-comment line does produce a
help directive — the source only bails out on an empty collected list, so
`["Does X."]` yields the directive `help="Does X."` rather than none. -/
theorem c3_counterexample :
    (Attrs.push_doc_comment (Attrs.new "opt" CasingStyle.Kebab) ["Does X."] "help").methods
      = [⟨"help", Expr.strLit "Does X."⟩]
  ∧ ([⟨"help", Expr.strLit "Does X."⟩] : List Method) ≠ [] := ⟨rfl, by decide⟩

/-- C3 (amended): only an empty collected doc-comment list emits no help
directive; a single collected line emits the single merged directive. -/
theorem c3_doc_few_lines_amended (a : Attrs) (name s : String) :
    (a.push_doc_comment [] name).methods = a.methods
  ∧ (a.push_doc_comment [s] name).methods
      = a.methods ++ [⟨name, Expr.strLit (merged_doc [s])⟩] := by
  constructor
  · rfl
  · simp [Attrs.push_doc_comment, doc_split_condition]

/-- C5: the accumulated directive list is append-only and never
deduplicated — any non-renaming, non-cancelling string directive is
appended after the existing entries — except that an empty-literal
`about`/`version`/`author` removes every directive of that name and adds
nothing; in particular an empty `version` applied after an injected
`version` leaves no `version` entry at all. -/
theorem c5_directive_dedup (a : Attrs) (nm arg : String) :
    (¬((nm = "about" ∨ nm = "version" ∨ nm = "author") ∧ arg = "") → nm ≠ "name" →
      (a.push_str_method nm arg).methods = a.methods ++ [⟨nm, Expr.strLit arg⟩])
  ∧ ((nm = "about" ∨ nm = "version" ∨ nm = "author") →
      (a.push_str_method nm "").methods
        = a.methods.filter (fun m => decide (m.name ≠ nm)))
  ∧ (((a.push_str_method "version" "1.0").push_str_method "version" "").methods.all
        (fun m => decide (m.name ≠ "version")) = true) := by
  refine ⟨?_, ?_, ?_⟩
  · intro h1 h2
    unfold Attrs.push_str_method
    rw [if_neg h1, if_neg h2]
  · intro h
    unfold Attrs.push_str_method
    rw [if_pos ⟨h, rfl⟩]
  · have h2 : ∀ b : Attrs, (b.push_str_method "version" "").methods
        = b.methods.filter (fun m => decide (m.name ≠ "version")) := by
      intro b
      unfold Attrs.push_str_method
      rw [if_pos (by decide)]
    rw [h2]
    simp only [List.all_eq_true, List.mem_filter]
    intro m hm
    exact hm.2

/-- C5 witness: appending a plain directive to a fresh model and
cancelling a just-injected `version` on a fresh model, via the theorem at
concrete inputs. -/
theorem c5_witness :
    ((Attrs.new "app" CasingStyle.Kebab).push_str_method "foo" "x").methods
      = [⟨"foo", Expr.strLit "x"⟩]
  ∧ ((Attrs.new "app" CasingStyle.Kebab).push_str_method "version" "").methods = [] := by
  constructor
  · have h := (c5_directive_dedup (Attrs.new "app" CasingStyle.Kebab) "foo" "x").1
      (by decide) (by decide)
    rw [h]
    rfl
  · have h := (c5_directive_dedup (Attrs.new "app" CasingStyle.Kebab) "version" "").2.1
      (Or.inr (Or.inl rfl))
    rw [h]
    rfl

/-- C2 counterexample: the short help value strips every trailing period,
not a single one — for the collected lines `["Ends..", "\n\n", "More."]`
the emitted short value is `"Ends"`, whereas stripping one trailing
period from the first line would give `"Ends."`. -/
theorem c2_counterexample :
    (Attrs.push_doc_comment (Attrs.new "opt" CasingStyle.Kebab)
        ["Ends..", "\n\n", "More."] "help").methods
      = [⟨"long_help", Expr.strLit "Ends..\n\nMore."⟩, ⟨"help", Expr.strLit "Ends"⟩]
  ∧ ("Ends" : String) ≠ "Ends." := ⟨rfl, by decide⟩

/-- C2 (amended): when more than 2 lines are collected and the second is
exactly the paragraph-break sentinel, exactly two directives are
appended: `long_<name>` with the full merged multi-line string and
`<name>` with the first line trimmed and all its trailing periods
stripped; in particular `["Does X.", "\n\n", "More detail."]` yields
`help="Does X"` and `long_help="Does X.\n\nMore detail."`.  Any other
non-empty collected list appends the single merged `<name>` directive
with no period stripping. -/
theorem c2_doc_split_amended (a : Attrs) (name first : String) (rest : List String) :
    (doc_split_condition (first :: rest) = true →
      (a.push_doc_comment (first :: rest) name).methods = a.methods ++
        [⟨"long_" ++ name, Expr.strLit (merged_doc (first :: rest))⟩,
         ⟨name, Expr.strLit (trim_end_dots (str_trim first))⟩])
  ∧ (doc_split_condition (first :: rest) = false →
      (a.push_doc_comment (first :: rest) name).methods
        = a.methods ++ [⟨name, Expr.strLit (merged_doc (first :: rest))⟩])
  ∧ (a.push_doc_comment ["Does X.", "\n\n", "More detail."] "help").methods
      = a.methods ++ [⟨"long_help", Expr.strLit "Does X.\n\nMore detail."⟩,
                      ⟨"help", Expr.strLit "Does X"⟩] := by
  refine ⟨?_, ?_, ?_⟩
  · intro h
    unfold Attrs.push_doc_comment
    rw [if_neg (by simp), if_pos h]
    rfl
  · intro h
    unfold Attrs.push_doc_comment
    rw [if_neg (by simp), if_neg (by simp [h])]
  · unfold Attrs.push_doc_comment
    rw [if_neg (by simp), if_pos (by decide)]
    rfl

/-- C2 witness: the amended split behavior applied at the spec's own
example input. -/
theorem c2_witness :
    ((Attrs.new "opt" CasingStyle.Kebab).push_doc_comment
        ["Does X.", "\n\n", "More detail."] "help").methods
      = [⟨"long_help", Expr.strLit "Does X.\n\nMore detail."⟩,
         ⟨"help", Expr.strLit "Does X"⟩] := by
  have h := (c2_doc_split_amended (Attrs.new "opt" CasingStyle.Kebab) "help" "Does X."
      ["\n\n", "More detail."]).1 (by decide)
  rw [h]
  rfl

/-- Auxiliary: `push_str_method` preserves the cased-name invariant. -/
theorem push_str_method_cased_name (a : Attrs) (nm arg : String)
    (h : a.cased_name = a.casing.translate a.name) :
    (a.push_str_method nm arg).cased_name
      = (a.push_str_method nm arg).casing.translate (a.push_str_method nm arg).name := by
  unfold Attrs.push_str_method
  split_ifs <;> simp [h]

/-- Auxiliary: a successful `set_kind` only changes the kind. -/
theorem set_kind_ok (b b' : Attrs) (k : Kind) (hok : b.set_kind k = Except.ok b') :
    b' = { b with kind := k } := by
  unfold Attrs.set_kind at hok
  split at hok
  · simp only [Except.ok.injEq] at hok
    exact hok.symm
  · exact Except.noConfusion hok

/-- Auxiliary: one successful directive application preserves the
cased-name invariant. -/
theorem push_attr_cased_name (a a' : Attrs) (d : ClapAttr)
    (h : a.cased_name = a.casing.translate a.name)
    (hok : a.push_attr d = Except.ok a') :
    a'.cased_name = a'.casing.translate a'.name := by
  cases d with
  | Short =>
    simp only [Attrs.push_attr, Except.ok.injEq] at hok
    subst hok
    exact push_str_method_cased_name a _ _ h
  | Long =>
    simp only [Attrs.push_attr, Except.ok.injEq] at hok
    subst hok
    exact push_str_method_cased_name a _ _ h
  | Subcommand =>
    simp only [Attrs.push_attr] at hok
    rw [set_kind_ok a a' _ hok]
    simpa using h
  | Flatten =>
    simp only [Attrs.push_attr] at hok
    rw [set_kind_ok a a' _ hok]
    simpa using h
  | NameLitStr nm lit =>
    simp only [Attrs.push_attr, Except.ok.injEq] at hok
    subst hok
    exact push_str_method_cased_name a _ _ h
  | NameExpr nm e =>
    simp only [Attrs.push_attr, Except.ok.injEq] at hok
    subst hok
    simpa using h
  | MethodCall nm args =>
    simp only [Attrs.push_attr, Except.ok.injEq] at hok
    subst hok
    simpa using h
  | RenameAll lit =>
    simp only [Attrs.push_attr] at hok
    split at hok
    · simp only [Except.ok.injEq] at hok
      subst hok
      simp
    · exact Except.noConfusion hok
  | Parse kind pf =>
    cases pf with
    | none =>
      simp only [Attrs.push_attr] at hok
      split at hok
      · exact Except.noConfusion hok
      · split at hok <;>
          first
          | (simp only [Except.ok.injEq] at hok
             subst hok
             simpa using h)
          | exact Except.noConfusion hok
    | some f =>
      simp only [Attrs.push_attr] at hok
      split at hok
      · exact Except.noConfusion hok
      · split at hok <;>
          first
          | (simp only [Except.ok.injEq] at hok
             subst hok
             simpa using h)
          | exact Except.noConfusion hok

/-- Auxiliary: a successful directive sequence preserves the cased-name
invariant. -/
theorem push_attrs_cased_name (ds : List ClapAttr) :
    ∀ a a' : Attrs, a.cased_name = a.casing.translate a.name →
      a.push_attrs ds = Except.ok a' →
      a'.cased_name = a'.casing.translate a'.name := by
  induction ds with
  | nil =>
    intro a a' h hok
    simp only [Attrs.push_attrs, Except.ok.injEq] at hok
    subst hok
    exact h
  | cons d rest ih =>
    intro a a' h hok
    simp only [Attrs.push_attrs] at hok
    cases hp : a.push_attr d with
    | ok amid =>
      rw [hp] at hok
      exact ih amid a' (push_attr_cased_name a amid d h hp) hok
    | error e =>
      rw [hp] at hok
      exact Except.noConfusion hok

/-- C6: `cased_name` always equals `casing.translate name` — it holds at
construction, is preserved by every successful directive application
(renaming re-derives it under the current casing, `rename_all` re-derives
it from the current name under the new casing), by every successful
directive sequence, and by doc-comment processing, so no stale
`cased_name` is ever observable. -/
theorem c6_cased_name_invariant (n : String) (c : CasingStyle) (a a' : Attrs)
    (d : ClapAttr) (ds : List ClapAttr) (docs : List String) (s : String) :
    ((Attrs.new n c).cased_name = c.translate n)
  ∧ (a.cased_name = a.casing.translate a.name → a.push_attr d = Except.ok a' →
       a'.cased_name = a'.casing.translate a'.name)
  ∧ (a.cased_name = a.casing.translate a.name → a.push_attrs ds = Except.ok a' →
       a'.cased_name = a'.casing.translate a'.name)
  ∧ (a.cased_name = a.casing.translate a.name →
       (a.push_doc_comment docs s).cased_name
         = (a.push_doc_comment docs s).casing.translate (a.push_doc_comment docs s).name) := by
  refine ⟨rfl, push_attr_cased_name a a' d, push_attrs_cased_name ds a a', ?_⟩
  · intro h
    unfold Attrs.push_doc_comment
    split_ifs <;> simp [h]

/-- C6 witness: the invariant transported through a concrete `rename_all`
directive application on a fresh model. -/
theorem c6_witness :
    (Attrs.new "myOpt" CasingStyle.Snake).cased_name
      = (Attrs.new "myOpt" CasingStyle.Snake).casing.translate
          (Attrs.new "myOpt" CasingStyle.Snake).name :=
  (c6_cased_name_invariant "myOpt" CasingStyle.Kebab (Attrs.new "myOpt" CasingStyle.Kebab)
      (Attrs.new "myOpt" CasingStyle.Snake) (ClapAttr.RenameAll "snake") [] [] "").2.1
    rfl rfl

/-- C7: the kind starts at `Arg Other`; promoting the kind of a model
whose kind is already non-`Arg` is fatal, so applying any two
kind-changing directives (`subcommand`/`flatten`, same or different, in
either order) is always fatal at the second one. -/
theorem c7_kind_one_shot (n : String) (c : CasingStyle) (a a1 : Attrs) (k : Kind)
    (d1 d2 : ClapAttr) :
    ((Attrs.new n c).kind = Kind.Arg Ty.Other)
  ∧ ((∀ t, a.kind ≠ Kind.Arg t) →
      a.set_kind k = Except.error "subcommands cannot be flattened")
  ∧ ((d1 = ClapAttr.Subcommand ∨ d1 = ClapAttr.Flatten) →
     (d2 = ClapAttr.Subcommand ∨ d2 = ClapAttr.Flatten) →
     a.push_attr d1 = Except.ok a1 →
     a1.push_attr d2 = Except.error "subcommands cannot be flattened") := by
  have hset : ∀ (b : Attrs) (k' : Kind), (∀ t, b.kind ≠ Kind.Arg t) →
      b.set_kind k' = Except.error "subcommands cannot be flattened" := by
    intro b k' hnb
    unfold Attrs.set_kind
    cases hk : b.kind with
    | Arg t => exact absurd hk (hnb t)
    | Subcommand t => rfl
    | FlattenStruct => rfl
  refine ⟨rfl, hset a k, ?_⟩
  intro hd1 hd2 hok
  have h1 : ∀ t, a1.kind ≠ Kind.Arg t := by
    rcases hd1 with rfl | rfl
    · simp only [Attrs.push_attr] at hok
      intro t
      rw [set_kind_ok a a1 _ hok]
      simp
    · simp only [Attrs.push_attr] at hok
      intro t
      rw [set_kind_ok a a1 _ hok]
      simp
  rcases hd2 with rfl | rfl
  · simpa only [Attrs.push_attr] using hset a1 _ h1
  · simpa only [Attrs.push_attr] using hset a1 _ h1

/-- C7 witness: `subcommand` then `flatten` on a fresh model is fatal at
the second directive. -/
theorem c7_witness :
    ({ Attrs.new "x" CasingStyle.Kebab with kind := Kind.Subcommand Ty.Other } : Attrs).push_attr
        ClapAttr.Flatten = Except.error "subcommands cannot be flattened" :=
  (c7_kind_one_shot "x" CasingStyle.Kebab (Attrs.new "x" CasingStyle.Kebab)
      { Attrs.new "x" CasingStyle.Kebab with kind := Kind.Subcommand Ty.Other }
      Kind.FlattenStruct ClapAttr.Subcommand ClapAttr.Flatten).2.2
    (Or.inl rfl) (Or.inr rfl) rfl

/-- Auxiliary: when the accumulation stage succeeds, `from_field` is the
validation stage applied to the accumulated model. -/
theorem from_field_ok (field : Field) (casing : CasingStyle) (res : Attrs)
    (hres : ((Attrs.new field.ident casing).push_doc_comment field.doc_comments
        "help").push_attrs field.clap_attrs = Except.ok res) :
    Attrs.from_field field casing = res.validate_kind res.kind field.ty := by
  unfold Attrs.from_field
  dsimp only
  rw [hres]

/-- C4 counterexample: a subcommand field whose only directives are the
doc-derived `help` and `long_help` directives does not pass validation —
the source only tolerates directives named `help`, so a multi-paragraph
doc comment (which also emits `long_help`) makes resolution fatal. -/
theorem c4_counterexample :
    ((Attrs.new "cmd" CasingStyle.Kebab).push_doc_comment
        ["Does X.", "\n\n", "More detail."] "help").methods.map Method.name
      = ["long_help", "help"]
  ∧ Attrs.from_field
      { ident := "cmd", doc_comments := ["Does X.", "\n\n", "More detail."],
        clap_attrs := [ClapAttr.Subcommand], ty := SynType.path "Sub" [] }
      CasingStyle.Kebab
    = Except.error "methods in attributes are not allowed for subcommand" := ⟨rfl, rfl⟩

/-- C4 (amended): for a field-level model whose kind resolves to
`Subcommand`: fatal if a custom parser was set; fatal if any accumulated
directive is named anything other than `help` — which includes the
doc-derived `long_help` directive, so only doc-derived short `help`
directives are tolerated; fatal if the field's inferred shape is
`OptionOption` or `OptionVec`; a subcommand field all of whose directives
are named `help` and whose shape is legal passes validation. -/
theorem c4_subcommand_validation (field : Field) (casing : CasingStyle) (res : Attrs) (t : Ty)
    (hres : ((Attrs.new field.ident casing).push_doc_comment field.doc_comments
        "help").push_attrs field.clap_attrs = Except.ok res)
    (hkind : res.kind = Kind.Subcommand t) :
    (res.hasCustomParser = true →
      Attrs.from_field field casing
        = Except.error "parse attribute is not allowed for subcommand")
  ∧ (res.hasCustomParser = false → (∃ m ∈ res.methods, m.name ≠ "help") →
      Attrs.from_field field casing
        = Except.error "methods in attributes are not allowed for subcommand")
  ∧ (res.hasCustomParser = false → (∀ m ∈ res.methods, m.name = "help") →
      ty_from_field field.ty = Ty.OptionOption →
      Attrs.from_field field casing
        = Except.error "Option<Option<T>> type is not allowed for subcommand")
  ∧ (res.hasCustomParser = false → (∀ m ∈ res.methods, m.name = "help") →
      ty_from_field field.ty = Ty.OptionVec →
      Attrs.from_field field casing
        = Except.error "Option<Vec<T>> type is not allowed for subcommand")
  ∧ (res.hasCustomParser = false → (∀ m ∈ res.methods, m.name = "help") →
      ty_from_field field.ty ≠ Ty.OptionOption → ty_from_field field.ty ≠ Ty.OptionVec →
      Attrs.from_field field casing
        = Except.ok { res with kind := Kind.Subcommand (ty_from_field field.ty) }) := by
  have hv := from_field_ok field casing res hres
  refine ⟨?_, ?_, ?_, ?_, ?_⟩
  · intro hcp
    rw [hv, hkind]
    simp only [Attrs.validate_kind]
    rw [if_pos hcp]
  · intro hcp hex
    obtain ⟨m, hm, hne⟩ := hex
    have hall : (res.methods.all fun m => decide (m.name = "help")) = false := by
      simp only [List.all_eq_false]
      exact ⟨m, hm, by simp [hne]⟩
    rw [hv, hkind]
    simp only [Attrs.validate_kind]
    rw [if_neg (by simp [hcp]), if_pos (by simp [hall])]
  · intro hcp hall hty
    have hall' : (res.methods.all fun m => decide (m.name = "help")) = true := by
      simp only [List.all_eq_true]
      intro m hm
      simpa using hall m hm
    rw [hv, hkind]
    simp only [Attrs.validate_kind]
    rw [if_neg (by simp [hcp]), if_neg (by simp [hall']), hty]
  · intro hcp hall hty
    have hall' : (res.methods.all fun m => decide (m.name = "help")) = true := by
      simp only [List.all_eq_true]
      intro m hm
      simpa using hall m hm
    rw [hv, hkind]
    simp only [Attrs.validate_kind]
    rw [if_neg (by simp [hcp]), if_neg (by simp [hall']), hty]
  · intro hcp hall h1 h2
    have hall' : (res.methods.all fun m => decide (m.name = "help")) = true := by
      simp only [List.all_eq_true]
      intro m hm
      simpa using hall m hm
    rw [hv, hkind]
    simp only [Attrs.validate_kind]
    rw [if_neg (by simp [hcp]), if_neg (by simp [hall'])]

/-- C4 witness: a subcommand field with no directives passes validation,
via the amended theorem at concrete inputs. -/
theorem c4_witness :
    Attrs.from_field
        { ident := "cmd", doc_comments := [], clap_attrs := [ClapAttr.Subcommand],
          ty := SynType.path "Sub" [] } CasingStyle.Kebab
      = Except.ok { Attrs.new "cmd" CasingStyle.Kebab with kind := Kind.Subcommand Ty.Other } := by
  have h := (c4_subcommand_validation
      { ident := "cmd", doc_comments := [], clap_attrs := [ClapAttr.Subcommand],
        ty := SynType.path "Sub" [] } CasingStyle.Kebab
      { Attrs.new "cmd" CasingStyle.Kebab with kind := Kind.Subcommand Ty.Other }
      Ty.Other rfl rfl).2.2.2.2
  rw [h rfl (by decide) (by decide) (by decide)]
  rfl

/-- C8: for a field-level model whose kind resolves to `Arg` with a
custom parser set, the shape used both in the legality checks and in the
resolved kind is downgraded to `Other` unless the inferred shape is
`Option` or `Vec`, which are kept; in the downgraded case the shape
checks cannot fire at all (they are vacuous at `Other`), and without a
custom parser the inferred shape is used unchanged. -/
theorem c8_custom_parser_downgrade (field : Field) (casing : CasingStyle) (res : Attrs) (t : Ty)
    (hres : ((Attrs.new field.ident casing).push_doc_comment field.doc_comments
        "help").push_attrs field.clap_attrs = Except.ok res)
    (hkind : res.kind = Kind.Arg t) :
    (res.hasCustomParser = false →
      Attrs.from_field field casing
        = match res.arg_shape_error (ty_from_field field.ty) with
          | some e => Except.error e
          | none => Except.ok { res with kind := Kind.Arg (ty_from_field field.ty) })
  ∧ (res.hasCustomParser = true →
     (ty_from_field field.ty = Ty.Option ∨ ty_from_field field.ty = Ty.Vec) →
      Attrs.from_field field casing
        = match res.arg_shape_error (ty_from_field field.ty) with
          | some e => Except.error e
          | none => Except.ok { res with kind := Kind.Arg (ty_from_field field.ty) })
  ∧ (res.hasCustomParser = true →
      ty_from_field field.ty ≠ Ty.Option → ty_from_field field.ty ≠ Ty.Vec →
      Attrs.from_field field casing = Except.ok { res with kind := Kind.Arg Ty.Other }) := by
  have hv := from_field_ok field casing res hres
  refine ⟨?_, ?_, ?_⟩
  · intro hcp
    rw [hv, hkind]
    simp only [Attrs.validate_kind, hcp]
    simp
  · intro hcp hor
    rw [hv, hkind]
    simp only [Attrs.validate_kind, hcp]
    rcases hor with hty | hty <;> rw [hty] <;> simp
  · intro hcp h1 h2
    rw [hv, hkind]
    simp only [Attrs.validate_kind, hcp]
    cases hty : ty_from_field field.ty
    case Option => exact absurd hty h1
    case Vec => exact absurd hty h2
    all_goals rfl

/-- C8 witness: a custom-parsed `bool` field carrying a `default_value`
directive resolves successfully with shape `Other` — the downgrade
happens before the `Bool`-shape legality check, which would otherwise be
fatal. -/
theorem c8_witness :
    Attrs.from_field
        { ident := "x", doc_comments := [],
          clap_attrs := [ClapAttr.Parse "from_str" none,
                         ClapAttr.NameLitStr "default_value" "yes"],
          ty := SynType.path "bool" [] } CasingStyle.Kebab
      = Except.ok { Attrs.new "x" CasingStyle.Kebab with
          hasCustomParser := true, parser := (Parser.FromStr, Expr.convertFrom),
          methods := [⟨"default_value", Expr.strLit "yes"⟩] } := by
  have h := (c8_custom_parser_downgrade
      { ident := "x", doc_comments := [],
        clap_attrs := [ClapAttr.Parse "from_str" none,
                       ClapAttr.NameLitStr "default_value" "yes"],
        ty := SynType.path "bool" [] } CasingStyle.Kebab
      { Attrs.new "x" CasingStyle.Kebab with
          hasCustomParser := true, parser := (Parser.FromStr, Expr.convertFrom),
          methods := [⟨"default_value", Expr.strLit "yes"⟩] }
      Ty.Other rfl rfl).2.2 rfl (by decide) (by decide)
  rw [h]
  rfl

/-- C9: the rendered `short` builder call keeps only the first character
of a string-literal argument (the remainder is discarded), the extraction
is an unguarded unwrap that panics on the empty string, and every
directive with any other name has its argument passed through
unchanged. -/
theorem c9_short_first_char (nm s : String) (c : Char) (cs : List Char) (e : Expr) :
    (s.data = c :: cs →
      render_method ⟨"short", Expr.strLit s⟩ = some ("short", RenderedArg.firstChar c))
  ∧ render_method ⟨"short", Expr.strLit ""⟩ = none
  ∧ (nm ≠ "short" → render_method ⟨nm, e⟩ = some (nm, RenderedArg.plain e)) := by
  refine ⟨?_, rfl, ?_⟩
  · intro h
    simp [render_method, h]
  · intro h
    simp [render_method, h]

/-- C9 witness: rendering a short directive whose cased-name argument is
`"my-app"` keeps only the character `m`. -/
theorem c9_witness :
    render_method ⟨"short", Expr.strLit "my-app"⟩
      = some ("short", RenderedArg.firstChar 'm') :=
  (c9_short_first_char "other" "my-app" 'm' "y-app".data Expr.fromStrFromStr).1 rfl

/-- Recognizer for the `parse` directive (the only directive that touches
the parser spec). -/
def is_parse_attr : ClapAttr → Bool
  | ClapAttr.Parse _ _ => true
  | _ => false

/-- Auxiliary: `push_str_method` never touches the parser spec. -/
theorem push_str_method_parser_frozen (a : Attrs) (nm arg : String) :
    (a.push_str_method nm arg).parser = a.parser
  ∧ (a.push_str_method nm arg).hasCustomParser = a.hasCustomParser := by
  unfold Attrs.push_str_method
  split_ifs <;> simp

/-- Auxiliary: a successful non-`parse` directive application never
touches the parser spec. -/
theorem push_attr_parser_frozen (a a' : Attrs) (d : ClapAttr)
    (hd : is_parse_attr d = false)
    (hok : a.push_attr d = Except.ok a') :
    a'.parser = a.parser ∧ a'.hasCustomParser = a.hasCustomParser := by
  cases d with
  | Short =>
    simp only [Attrs.push_attr, Except.ok.injEq] at hok
    subst hok
    exact push_str_method_parser_frozen a _ _
  | Long =>
    simp only [Attrs.push_attr, Except.ok.injEq] at hok
    subst hok
    exact push_str_method_parser_frozen a _ _
  | Subcommand =>
    simp only [Attrs.push_attr] at hok
    rw [set_kind_ok a a' _ hok]
    exact ⟨rfl, rfl⟩
  | Flatten =>
    simp only [Attrs.push_attr] at hok
    rw [set_kind_ok a a' _ hok]
    exact ⟨rfl, rfl⟩
  | NameLitStr nm lit =>
    simp only [Attrs.push_attr, Except.ok.injEq] at hok
    subst hok
    exact push_str_method_parser_frozen a _ _
  | NameExpr nm e =>
    simp only [Attrs.push_attr, Except.ok.injEq] at hok
    subst hok
    exact ⟨rfl, rfl⟩
  | MethodCall nm args =>
    simp only [Attrs.push_attr, Except.ok.injEq] at hok
    subst hok
    exact ⟨rfl, rfl⟩
  | RenameAll lit =>
    simp only [Attrs.push_attr] at hok
    split at hok
    · simp only [Except.ok.injEq] at hok
      subst hok
      exact ⟨rfl, rfl⟩
    · exact Except.noConfusion hok
  | Parse kind pf =>
    exact absurd hd (by simp [is_parse_attr])

/-- Auxiliary: a successful `parse`-free directive sequence never touches
the parser spec. -/
theorem push_attrs_parser_frozen (ds : List ClapAttr) :
    ∀ a a' : Attrs, (∀ d ∈ ds, is_parse_attr d = false) →
      a.push_attrs ds = Except.ok a' →
      a'.parser = a.parser ∧ a'.hasCustomParser = a.hasCustomParser := by
  induction ds with
  | nil =>
    intro a a' _ hok
    simp only [Attrs.push_attrs, Except.ok.injEq] at hok
    subst hok
    exact ⟨rfl, rfl⟩
  | cons d rest ih =>
    intro a a' hnp hok
    simp only [Attrs.push_attrs] at hok
    cases hp : a.push_attr d with
    | ok amid =>
      rw [hp] at hok
      have h1 := push_attr_parser_frozen a amid d (hnp d (by simp)) hp
      have h2 := ih amid a' (fun d' hd' => hnp d' (by simp [hd'])) hok
      exact ⟨h2.1.trans h1.1, h2.2.trans h1.2⟩
    | error e =>
      rw [hp] at hok
      exact Except.noConfusion hok

/-- Auxiliary: doc-comment processing never touches the parser spec. -/
theorem push_doc_comment_parser_frozen (a : Attrs) (docs : List String) (s : String) :
    (a.push_doc_comment docs s).parser = a.parser
  ∧ (a.push_doc_comment docs s).hasCustomParser = a.hasCustomParser := by
  unfold Attrs.push_doc_comment
  split_ifs <;> simp

/-- Auxiliary: the validation stage never touches the parser spec. -/
theorem validate_kind_parser_frozen (res r : Attrs) (k : Kind) (ty : SynType)
    (hok : res.validate_kind k ty = Except.ok r) :
    r.parser = res.parser ∧ r.hasCustomParser = res.hasCustomParser := by
  cases k with
  | FlattenStruct =>
    simp only [Attrs.validate_kind] at hok
    split_ifs at hok
    · simp only [Except.ok.injEq] at hok
      subst hok
      exact ⟨rfl, rfl⟩
  | Subcommand t =>
    simp only [Attrs.validate_kind] at hok
    split_ifs at hok
    split at hok
    · exact Except.noConfusion hok
    · exact Except.noConfusion hok
    · simp only [Except.ok.injEq] at hok
      subst hok
      exact ⟨rfl, rfl⟩
  | Arg t =>
    simp only [Attrs.validate_kind] at hok
    split at hok
    · exact Except.noConfusion hok
    · simp only [Except.ok.injEq] at hok
      subst hok
      exact ⟨rfl, rfl⟩

/-- C10: every freshly constructed model starts with the `TryFromStr`
parser paired with the string-parse conversion expression and with the
custom-parser flag off, and a field that never receives a `parse`
directive resolves with exactly that default parser spec. -/
theorem c10_default_parser_spec (n : String) (c : CasingStyle) (field : Field)
    (casing : CasingStyle) (res : Attrs) :
    ((Attrs.new n c).parser = (Parser.TryFromStr, Expr.fromStrFromStr)
      ∧ (Attrs.new n c).hasCustomParser = false)
  ∧ ((∀ d ∈ field.clap_attrs, is_parse_attr d = false) →
      Attrs.from_field field casing = Except.ok res →
      res.parser = (Parser.TryFromStr, Expr.fromStrFromStr)
        ∧ res.hasCustomParser = false) := by
  refine ⟨⟨rfl, rfl⟩, ?_⟩
  intro hnp hok
  unfold Attrs.from_field at hok
  dsimp only at hok
  cases hp : ((Attrs.new field.ident casing).push_doc_comment field.doc_comments
      "help").push_attrs field.clap_attrs with
  | error e =>
    rw [hp] at hok
    exact Except.noConfusion hok
  | ok mid =>
    rw [hp] at hok
    have h1 := push_attrs_parser_frozen field.clap_attrs _ mid hnp hp
    have h2 := push_doc_comment_parser_frozen (Attrs.new field.ident casing)
      field.doc_comments "help"
    have h3 := validate_kind_parser_frozen mid res mid.kind field.ty hok
    constructor
    · rw [h3.1, h1.1, h2.1]
      rfl
    · rw [h3.2, h1.2, h2.2]
      rfl

/-- C10 witness: a field with no directives at all resolves with the
default TryFromStr parser spec. -/
theorem c10_witness :
    (Attrs.new "x" CasingStyle.Kebab).parser = (Parser.TryFromStr, Expr.fromStrFromStr)
  ∧ (Attrs.new "x" CasingStyle.Kebab).hasCustomParser = false :=
  (c10_default_parser_spec "q" CasingStyle.Snake
      { ident := "x", doc_comments := [], clap_attrs := [], ty := SynType.path "String" [] }
      CasingStyle.Kebab (Attrs.new "x" CasingStyle.Kebab)).2
    (by simp) rfl

end ClapDerive
